import Mathlib

/-!
Verification of the question-alignment engine of the survey training-data
repository (source: question_splitter.py).  The Python code is shallowly
embedded below: the Word-document question segmenter
(WordQuestionExtractor), the markup question extractor
(XMLQuestionExtractor), and the fuzzy matcher (QuestionMatcher /
QuestionSplitter).  Python strings are modelled by Lean String (code
points), the anchored regular expressions used for question-number
detection are modelled by an explicit backtracking matcher over sequences
of quantified character classes (which is exactly the shape of all eight
patterns in the source), and the external fuzzywuzzy ratios are abstract
integer-valued parameters in [0,100], exactly as consumed by
calculate_similarity.  Scores are rational numbers (the source uses
floats; the claims under study are order/selection/bound properties that
do not depend on rounding).
-/

set_option maxRecDepth 20000

/-- Model of the Python whitespace class for ASCII text (str.strip and
regex class behaviour on the ASCII range). -/
def pyIsSpace (c : Char) : Bool :=
  c = ' ' || c = '\t' || c = '\n' || c = '\r' || c = '\x0b' || c = '\x0c'

/-- Model of Python str.strip(): drop whitespace from both ends. -/
def pyStrip (s : String) : String :=
  ⟨((s.data.dropWhile pyIsSpace).reverse.dropWhile pyIsSpace).reverse⟩

/-- Fuel-driven worker for pyEraseAll: every step consumes at least one
character, so fuel equal to the input length always suffices. -/
def pyEraseAllF (sub : List Char) : Nat → List Char → List Char
  | 0, s => s
  | _, [] => []
  | fuel + 1, c :: rest =>
    if sub.isPrefixOf (c :: rest) then
      pyEraseAllF sub fuel (List.drop (sub.length - 1) rest)
    else
      c :: pyEraseAllF sub fuel rest

/-- Model of Python str.replace(sub, "") for a fixed needle: delete
non-overlapping occurrences left to right.  Only called with a non-empty
needle (the captured group of a successful match is never empty). -/
def pyEraseAll (sub s : List Char) : List Char := pyEraseAllF sub s.length s

/-- Quantifier of a regex atom: exactly one, optional, zero-or-more
(greedy), one-or-more (greedy). -/
inductive Quant where
  | one
  | qopt
  | qstar
  | qplus
deriving Repr

/-- One atom of an anchored pattern: a character class with a quantifier.
Every one of the eight question-number patterns in the source is a
sequence of such atoms followed by the capturing group (.+). -/
structure QItem where
  q : Quant
  cls : Char → Bool

/-- Consume exactly one character of the class, then continue. -/
def tryCls (p : Char → Bool) (cs : List Char) (k : List Char → Option (List Char)) :
    Option (List Char) :=
  match cs with
  | [] => none
  | c :: rest => if p c then k rest else none

/-- Greedy Kleene star over a character class with backtracking: consume
as many class characters as possible, retrying shorter consumptions if the
continuation fails — the standard leftmost-greedy regex semantics. -/
def starCls (p : Char → Bool) : List Char → (List Char → Option (List Char)) →
    Option (List Char)
  | [], k => k []
  | c :: rest, k =>
    if p c then
      match starCls p rest k with
      | some r => some r
      | none => k (c :: rest)
    else k (c :: rest)

/-- Run a sequence of quantified character classes against the input with
greedy backtracking, handing the leftover input to the continuation. -/
def runItems : List QItem → List Char → (List Char → Option (List Char)) →
    Option (List Char)
  | [], cs, k => k cs
  | it :: its, cs, k =>
    match it.q with
    | .one => tryCls it.cls cs (fun rest => runItems its rest k)
    | .qopt =>
      match tryCls it.cls cs (fun rest => runItems its rest k) with
      | some r => some r
      | none => runItems its cs k
    | .qstar => starCls it.cls cs (fun rest => runItems its rest k)
    | .qplus =>
      tryCls it.cls cs (fun rest =>
        starCls it.cls rest (fun rest2 => runItems its rest2 k))

/-- Run one anchored pattern PREFIX(.+) against the whole input: the
prefix is the quantified-class sequence, and the final capturing group
(.+) greedily takes everything that remains, so on success the returned
value is group(1) and group(0) is the entire input. -/
def runPat (its : List QItem) (s : List Char) : Option (List Char) :=
  runItems its s (fun rest => if rest.isEmpty then none else some rest)

/-- Character class [qsQS]. -/
def clsQS (c : Char) : Bool := c = 'q' || c = 's' || c = 'Q' || c = 'S'

/-- Character class \d (ASCII digits; the divergence from Unicode digit
matching is immaterial to the claims). -/
def clsDigit (c : Char) : Bool := c.isDigit

/-- Character class [.\)]. -/
def clsDotPar (c : Char) : Bool := c = '.' || c = ')'

/-- Character class [A-Z] under re.IGNORECASE: any ASCII letter. -/
def clsAlpha (c : Char) : Bool := c.isAlpha

/-- Character class [:\.]. -/
def clsColonDot (c : Char) : Bool := c = ':' || c = '.'

/-- A case-insensitive literal character (for the word Question). -/
def clsLit (a : Char) (c : Char) : Bool := c.toLower = a

/-- Pattern 1 prefix: \s*[qsQS]\d+[.\)]*\s* . -/
def pat1 : List QItem :=
  [⟨.qstar, pyIsSpace⟩, ⟨.one, clsQS⟩, ⟨.qplus, clsDigit⟩,
   ⟨.qstar, clsDotPar⟩, ⟨.qstar, pyIsSpace⟩]

/-- Pattern 2 prefix: \s*\[?[qsQS]\d+\]?\s* . -/
def pat2 : List QItem :=
  [⟨.qstar, pyIsSpace⟩, ⟨.qopt, fun c => c = '['⟩, ⟨.one, clsQS⟩,
   ⟨.qplus, clsDigit⟩, ⟨.qopt, fun c => c = ']'⟩, ⟨.qstar, pyIsSpace⟩]

/-- Pattern 3 prefix: \s*\(?[qsQS]\d+\)?\s* . -/
def pat3 : List QItem :=
  [⟨.qstar, pyIsSpace⟩, ⟨.qopt, fun c => c = '('⟩, ⟨.one, clsQS⟩,
   ⟨.qplus, clsDigit⟩, ⟨.qopt, fun c => c = ')'⟩, ⟨.qstar, pyIsSpace⟩]

/-- Pattern 4 prefix: \s*\d+[.\)]\s* . -/
def pat4 : List QItem :=
  [⟨.qstar, pyIsSpace⟩, ⟨.qplus, clsDigit⟩, ⟨.one, clsDotPar⟩,
   ⟨.qstar, pyIsSpace⟩]

/-- Pattern 5 prefix: \s*[A-Z]\d+[.\)]*\s* (IGNORECASE). -/
def pat5 : List QItem :=
  [⟨.qstar, pyIsSpace⟩, ⟨.one, clsAlpha⟩, ⟨.qplus, clsDigit⟩,
   ⟨.qstar, clsDotPar⟩, ⟨.qstar, pyIsSpace⟩]

/-- Pattern 6 prefix: \s*Question\s+\d+[:\.]?\s* (IGNORECASE). -/
def pat6 : List QItem :=
  [⟨.qstar, pyIsSpace⟩, ⟨.one, clsLit 'q'⟩, ⟨.one, clsLit 'u'⟩,
   ⟨.one, clsLit 'e'⟩, ⟨.one, clsLit 's'⟩, ⟨.one, clsLit 't'⟩,
   ⟨.one, clsLit 'i'⟩, ⟨.one, clsLit 'o'⟩, ⟨.one, clsLit 'n'⟩,
   ⟨.qplus, pyIsSpace⟩, ⟨.qplus, clsDigit⟩, ⟨.qopt, clsColonDot⟩,
   ⟨.qstar, pyIsSpace⟩]

/-- Pattern 7 prefix: \s*[A-Z]+\d*[.\)]\s* (IGNORECASE). -/
def pat7 : List QItem :=
  [⟨.qstar, pyIsSpace⟩, ⟨.qplus, clsAlpha⟩, ⟨.qstar, clsDigit⟩,
   ⟨.one, clsDotPar⟩, ⟨.qstar, pyIsSpace⟩]

/-- Pattern 8 prefix: \s*\d+\.\d+\s* . -/
def pat8 : List QItem :=
  [⟨.qstar, pyIsSpace⟩, ⟨.qplus, clsDigit⟩, ⟨.one, fun c => c = '.'⟩,
   ⟨.qplus, clsDigit⟩, ⟨.qstar, pyIsSpace⟩]

/-- The ordered list self.question_patterns of the source. -/
def question_patterns : List (List QItem) :=
  [pat1, pat2, pat3, pat4, pat5, pat6, pat7, pat8]

/-- First matching pattern in order, returning the captured group(1) of
the match: the shared core of is_question_start, extract_question_number
and extract_question_text, which all loop over the same compiled pattern
list and act on the first match. -/
def first_group1 (p' : List Char) : Option (List Char) :=
  question_patterns.findSome? (fun pat => runPat pat p')

/-- Embedding of WordQuestionExtractor.is_question_start. -/
def is_question_start (p : String) : Bool :=
  let p' := pyStrip p
  !(p' = "") && (first_group1 p'.data).isSome

/-- Embedding of WordQuestionExtractor.extract_question_text: the
stripped captured remainder of the first matching pattern, or the whole
stripped paragraph when no pattern matches. -/
def extract_question_text (p : String) : String :=
  let p' := pyStrip p
  match first_group1 p'.data with
  | some g => pyStrip ⟨g⟩
  | none => p'

/-- Embedding of WordQuestionExtractor.extract_question_number: the full
match (which is the entire stripped paragraph, since the trailing (.+) of
every pattern is greedy) with every occurrence of the captured question
text deleted, then stripped; empty when no pattern matches. -/
def extract_question_number (p : String) : String :=
  let p' := pyStrip p
  match first_group1 p'.data with
  | some g => pyStrip ⟨pyEraseAll g p'.data⟩
  | none => ""

/-- A question unit extracted from the Word document (the dict built in
WordQuestionExtractor.extract_questions). -/
structure WordQ where
  number : String
  text : String
  full_content : String
  word_index : Nat
deriving DecidableEq, Repr

/-- Model of the Python newline join used to build full_content. -/
def join_lines : List String → String
  | [] => ""
  | [x] => x
  | x :: y :: rest => x ++ "\n" ++ join_lines (y :: rest)

/-- Running character count of the accumulated content lines. -/
def totalChars (ls : List String) : Nat := (ls.map String.length).sum

/-- Python truthiness of the current_question variable (None or an empty
string are falsy). -/
def truthyS : Option String → Bool
  | none => false
  | some s => !(s = "")

/-- Model of Python str.split with a single newline separator. -/
def splitNl : List Char → List (List Char)
  | [] => [[]]
  | c :: rest =>
    if c = '\n' then [] :: splitNl rest
    else
      match splitNl rest with
      | [] => [[c]]
      | l :: ls => (c :: l) :: ls

/-- The non-empty stripped paragraphs of the document, exactly as built
at the top of extract_questions. -/
def paragraphs_of (d : String) : List String :=
  ((splitNl d.data).map (fun l => pyStrip ⟨l⟩)).filter (fun p => !(p = ""))

/-- Build the dict appended to the questions list. -/
def mkUnit (n t : String) (content : List String) (idx : Nat) : WordQ :=
  ⟨n, t, join_lines content, idx⟩

/-- Embedding of the main loop of WordQuestionExtractor.extract_questions
(state: accumulated questions, current question text, current content
lines, current number).  A paragraph matching a numbering pattern flushes
the open accumulator and opens a new one; a non-matching paragraph is
appended to the open accumulator, and if the accumulated character count
then exceeds the limit the Python loop executes a break, after which the
trailing flush still emits the open accumulator. -/
def extract_loop (limit : Nat) : List String → Option String → List String →
    String → List WordQ → List WordQ
  | [], curQ, curC, curN, acc =>
    if truthyS curQ then acc ++ [mkUnit curN (curQ.getD "") curC acc.length]
    else acc
  | p :: ps, curQ, curC, curN, acc =>
    if is_question_start p then
      let acc2 :=
        if truthyS curQ then acc ++ [mkUnit curN (curQ.getD "") curC acc.length]
        else acc
      extract_loop limit ps (some (extract_question_text p)) [p]
        (extract_question_number p) acc2
    else if truthyS curQ && !(p = "") then
      let curC2 := curC ++ [p]
      if limit < totalChars curC2 then
        acc ++ [mkUnit curN (curQ.getD "") curC2 acc.length]
      else extract_loop limit ps curQ curC2 curN acc
    else extract_loop limit ps curQ curC curN acc

/-- Embedding of WordQuestionExtractor.extract_questions (limit is the
configurable content_limit_chars, default 2000). -/
def extract_questions (limit : Nat) (docx_text : String) : List WordQ :=
  extract_loop limit (paragraphs_of docx_text) none [] "" []

/-- Node of the parsed markup tree. -/
inductive XNode where
  | xtext (s : String)
  | xelem (tag : String) (attrs : List (String × String)) (children : List XNode)
deriving Repr

/-- The data of an element node.  Ancestors of a title element are always
elements, so the ancestor chain is carried as element data directly. -/
structure ElemD where
  tag : String
  attrs : List (String × String)
  children : List XNode
deriving Repr

/-- Rebuild the element node from its data. -/
def ElemD.node (e : ElemD) : XNode := .xelem e.tag e.attrs e.children

/-- Serialization of attributes, model of the lxml output form. -/
def serAttrs : List (String × String) → String
  | [] => ""
  | (k, v) :: rest => " " ++ k ++ "=" ++ "\"" ++ v ++ "\"" ++ serAttrs rest

mutual

/-- Model of etree.tostring on a subtree: the full serialized subtree
(tags, attributes and nested text in original order). -/
def serialize : XNode → String
  | .xtext s => s
  | .xelem tag attrs children =>
    "<" ++ tag ++ serAttrs attrs ++ ">" ++ serList children ++ "</" ++ tag ++ ">"

/-- Serialization of a child list. -/
def serList : List XNode → String
  | [] => ""
  | c :: cs => serialize c ++ serList cs

end

/-- Model of the lxml .text accessor combined with the `or ""` in the
source: the text that precedes the first child element, empty otherwise. -/
def elemText (e : ElemD) : String :=
  match e.children with
  | .xtext s :: _ => s
  | _ => ""

/-- Model of title.get for the id attribute (xpath already guarantees the
attribute is present on every collected element). -/
def idOf (e : ElemD) : String := ((e.attrs.lookup "id").getD "")

mutual

/-- Model of root.xpath collecting every title element that carries an id
attribute, in document order, each paired with its ancestor chain listed
from the immediate parent upward. -/
def collect_titles (anc : List ElemD) : XNode → List (ElemD × List ElemD)
  | .xtext _ => []
  | .xelem tag attrs children =>
    let d : ElemD := ⟨tag, attrs, children⟩
    (if tag = "title" && (attrs.lookup "id").isSome then [(d, anc)] else [])
      ++ collect_forest (d :: anc) children

/-- Collection over a sibling list. -/
def collect_forest (anc : List ElemD) : List XNode → List (ElemD × List ElemD)
  | [] => []
  | c :: cs => collect_titles anc c ++ collect_forest anc cs

end

/-- The fixed set of section-boundary tags of the source. -/
def section_tags : List String := ["suspend", "page", "question", "exec"]

/-- Embedding of the while loop walking the ancestor chain upward from
the immediate parent until an element with a section-boundary tag is
found (None when the chain is exhausted). -/
def find_boundary : List ElemD → Option ElemD
  | [] => none
  | p :: rest => if p.tag ∈ section_tags then some p else find_boundary rest

/-- The element whose serialized subtree becomes full_section: the
boundary ancestor when the while loop finds one, otherwise the immediate
parent, otherwise the title element itself — exactly the if/else chain of
the source. -/
def chooseSection (t : ElemD) (anc : List ElemD) : ElemD :=
  match find_boundary anc with
  | some p => p
  | none =>
    match anc with
    | p :: _ => p
    | [] => t

/-- A question unit extracted from the markup (the dict built in
XMLQuestionExtractor.extract_questions). -/
structure XmlQ where
  id : String
  text : String
  full_section : String
  xml_index : Nat
deriving DecidableEq, Repr

/-- Embedding of the loop body of XMLQuestionExtractor.extract_questions:
skip already-seen ids and titles whose trimmed text is empty, otherwise
record the id as seen and append a unit whose section is the serialized
chosen ancestor. -/
def xml_loop : List (ElemD × List ElemD) → List String → List XmlQ → List XmlQ
  | [], _, acc => acc
  | (t, anc) :: rest, seen, acc =>
    let qid := idOf t
    if qid ∈ seen || pyStrip (elemText t) = "" then xml_loop rest seen acc
    else
      xml_loop rest (qid :: seen)
        (acc ++ [⟨qid, pyStrip (elemText t),
                  serialize (chooseSection t anc).node, acc.length⟩])

/-- Embedding of XMLQuestionExtractor.extract_questions on a parsed tree
(parse failures make the source return an empty list before this loop
runs, so the embedding starts from the parsed root). -/
def xml_extract (root : XNode) : List XmlQ :=
  xml_loop (collect_titles [] root) [] []

/-- Fuel-driven worker for collapseWs. -/
def collapseWsF : Nat → List Char → List Char
  | 0, s => s
  | _, [] => []
  | fuel + 1, c :: cs =>
    if pyIsSpace c then ' ' :: collapseWsF fuel (cs.dropWhile pyIsSpace)
    else c :: collapseWsF fuel cs

/-- Collapse every maximal whitespace run to a single space, model of
re.sub with pattern \s+ and replacement a single space. -/
def collapseWs (cs : List Char) : List Char := collapseWsF cs.length cs

/-- Case-insensitive prefix test for a literal phrase. -/
def ciIsPre : List Char → List Char → Bool
  | [], _ => true
  | _ :: _, [] => false
  | a :: asx, c :: cs => (c.toLower = a.toLower) && ciIsPre asx cs

/-- Fuel-driven worker for ciEraseAll. -/
def ciEraseAllF (sub : List Char) : Nat → List Char → List Char
  | 0, s => s
  | _, [] => []
  | fuel + 1, c :: rest =>
    if ciIsPre sub (c :: rest) then
      ciEraseAllF sub fuel (List.drop (sub.length - 1) rest)
    else
      c :: ciEraseAllF sub fuel rest

/-- Delete every case-insensitive, non-overlapping occurrence of the
literal phrase, model of re.sub of an escaped literal with IGNORECASE and
empty replacement.  Only used with non-empty phrases. -/
def ciEraseAll (sub s : List Char) : List Char := ciEraseAllF sub s.length s

/-- The fixed boilerplate artifact phrases removed by normalize_text. -/
def artifacts : List String :=
  ["(please select one)", "(select all that apply)",
   "(check all that apply)", "(single response)", "(multiple response)"]

/-- Word characters in the sense of the regex class \w (ASCII model). -/
def isWordChar (c : Char) : Bool := c.isAlphanum || c = '_'

/-- Replace every character outside word characters, whitespace and the
question mark by a space, model of re.sub with class complement. -/
def punctToSpace (cs : List Char) : List Char :=
  cs.map (fun c => if isWordChar c || pyIsSpace c || c = '?' then c else ' ')

/-- Embedding of QuestionMatcher.normalize_text: collapse whitespace and
strip, delete the boilerplate phrases case-insensitively, replace other
punctuation by spaces, collapse and strip again, lower-case. -/
def normalize_text (t : String) : String :=
  let s1 := pyStrip ⟨collapseWs t.data⟩
  let s2 := artifacts.foldl (fun acc a => ⟨ciEraseAll a.data acc.data⟩) s1
  let s3 := pyStrip ⟨collapseWs (punctToSpace s2.data)⟩
  ⟨s3.data.map Char.toLower⟩

/-- Embedding of QuestionMatcher.calculate_similarity, parameterized by
the three external fuzzywuzzy ratios (integer percentages, as returned by
fuzz.ratio, fuzz.partial_ratio and fuzz.token_sort_ratio).  The source
divides each by 100 and combines them with weights 0.3, 0.3, 0.4. -/
def calculate_similarity (fr fpr fts : String → String → ℕ) (t1 t2 : String) : ℚ :=
  let n1 := normalize_text t1
  let n2 := normalize_text t2
  (fr n1 n2 : ℚ) / 100 * (3 / 10) + (fpr n1 n2 : ℚ) / 100 * (3 / 10)
    + (fts n1 n2 : ℚ) / 100 * (4 / 10)

/-- One fold step of the best-candidate search in find_best_match: update
the running best exactly when the new score is strictly greater. -/
def bestStep (sim : String → String → ℚ) (w : WordQ)
    (b : Option XmlQ × ℚ) (xq : XmlQ) : Option XmlQ × ℚ :=
  if b.2 < sim w.text xq.text then (some xq, sim w.text xq.text) else b

/-- Embedding of QuestionMatcher.find_best_match: fold over the candidate
pool starting from (None, 0.0); return the running best when its score
reaches the threshold, None otherwise.  The returned best candidate can
itself be None when the threshold is not positive and no score exceeded
zero, exactly as in the source. -/
def find_best_match (sim : String → String → ℚ) (thr : ℚ) (w : WordQ)
    (xqs : List XmlQ) : Option (Option XmlQ × ℚ) :=
  let best := xqs.foldl (bestStep sim w) ((none : Option XmlQ), (0 : ℚ))
  if thr ≤ best.2 then some best else none

/-- An accepted match of QuestionMatcher.match_questions. -/
structure MatchEntry where
  word_q : WordQ
  xml_q : XmlQ
  similarity_score : ℚ
deriving DecidableEq, Repr

/-- The result dict of QuestionMatcher.match_questions. -/
structure MatchResult where
  matches' : List MatchEntry
  unmatched_word : List WordQ
  unmatched_xml : List XmlQ
deriving DecidableEq, Repr

/-- Embedding of the loop of QuestionMatcher.match_questions.  The Python
list.remove raises ValueError when the element is absent; in particular,
when find_best_match returns a pair whose best candidate is None (possible
only for non-positive thresholds), remove(None) raises.  Those raising
executions are modelled by Except.error. -/
def match_loop (sim : String → String → ℚ) (thr : ℚ) :
    List WordQ → List MatchEntry → List WordQ → List XmlQ →
    Except String MatchResult
  | [], ms, uw, ux => .ok ⟨ms, uw, ux⟩
  | w :: ws, ms, uw, ux =>
    match find_best_match sim thr w ux with
    | some (some x, s) =>
      if x ∈ ux then
        match_loop sim thr ws (ms ++ [⟨w, x, s⟩]) uw (ux.erase x)
      else .error "ValueError"
    | some (none, _) => .error "ValueError"
    | none => match_loop sim thr ws ms (uw ++ [w]) ux

/-- Embedding of QuestionMatcher.match_questions. -/
def match_questions (sim : String → String → ℚ) (thr : ℚ)
    (wqs : List WordQ) (xqs : List XmlQ) : Except String MatchResult :=
  match_loop sim thr wqs [] [] xqs

/-- Embedding of QuestionSplitter.process_survey_pair from the two
extracted unit lists onward: the two early returns for an empty side,
then the matcher. -/
def process_survey_pair (sim : String → String → ℚ) (thr : ℚ)
    (wqs : List WordQ) (xqs : List XmlQ) : Except String MatchResult :=
  if wqs = [] then .ok ⟨[], [], xqs⟩
  else if xqs = [] then .ok ⟨[], wqs, []⟩
  else match_questions sim thr wqs xqs

lemma str_ne_empty_iff (s : String) : s ≠ "" ↔ s.data ≠ [] := by
  constructor
  · intro h hd
    apply h
    cases s with
    | mk d => simp_all
  · intro h hs
    exact h (by simp [hs])

lemma append_ne_left (a b : String) (h : a ≠ "") : a ++ b ≠ "" := by
  rw [str_ne_empty_iff] at h ⊢
  intro hd
  exact h (List.append_eq_nil.mp (by simpa [String.data_append] using hd)).1

lemma append_ne_right (a b : String) (h : b ≠ "") : a ++ b ≠ "" := by
  rw [str_ne_empty_iff] at h ⊢
  intro hd
  exact h (List.append_eq_nil.mp (by simpa [String.data_append] using hd)).2

lemma join_lines_ne (h : String) (t : List String) (hne : h ≠ "") :
    join_lines (h :: t) ≠ "" := by
  cases t with
  | nil => simpa [join_lines] using hne
  | cons y ys => simpa [join_lines] using append_ne_left _ _ (append_ne_left _ _ hne)

lemma serialize_node_ne (e : ElemD) : serialize e.node ≠ "" := by
  cases e with
  | mk tag attrs children =>
    simp only [ElemD.node, serialize]
    refine append_ne_left _ _ (append_ne_left _ _ (append_ne_left _ _
      (append_ne_left _ _ (append_ne_left _ _ (append_ne_left _ _
        (append_ne_left _ _ ?_))))))
    decide

/-- C7: if either unit list handed to the aligner is empty, the survey
processing returns normally with zero matches and every unit of the
non-empty side unmatched on its own side. -/
theorem C7_empty_side_total (sim : String → String → ℚ) (thr : ℚ)
    (wqs : List WordQ) (xqs : List XmlQ) (h : wqs = [] ∨ xqs = []) :
    process_survey_pair sim thr wqs xqs = .ok ⟨[], wqs, xqs⟩ := by
  rcases h with h | h
  · subst h
    simp [process_survey_pair]
  · subst h
    by_cases hw : wqs = []
    · subst hw
      simp [process_survey_pair]
    · simp [process_survey_pair, hw]

/-- Witness for C7 at a concrete input. -/
theorem C7_witness :
    process_survey_pair (fun _ _ => 0) 1 [] [⟨"a", "b", "c", 0⟩] =
      .ok ⟨[], [], [⟨"a", "b", "c", 0⟩]⟩ :=
  C7_empty_side_total (fun _ _ => 0) 1 [] [⟨"a", "b", "c", 0⟩] (Or.inl rfl)

lemma bestStep_text_only (sim : String → String → ℚ) (w w' : WordQ)
    (hw : w.text = w'.text) : bestStep sim w = bestStep sim w' := by
  funext b xq
  simp [bestStep, hw]

lemma bestFold_map_section (sim : String → String → ℚ) (w : WordQ)
    (g : String → String) :
    ∀ (l : List XmlQ) (b : Option XmlQ × ℚ),
      (l.map (fun x => { x with full_section := g x.full_section })).foldl
          (bestStep sim w)
          (b.1.map (fun x => { x with full_section := g x.full_section }), b.2) =
        ((l.foldl (bestStep sim w) b).1.map
            (fun x => { x with full_section := g x.full_section }),
          (l.foldl (bestStep sim w) b).2) := by
  intro l
  induction l with
  | nil => intro b; rfl
  | cons a l ih =>
    intro b
    simp only [List.map_cons, List.foldl_cons]
    rw [← ih (bestStep sim w b a)]
    by_cases hab : b.2 < sim w.text a.text
    · simp [bestStep, hab]
    · simp [bestStep, hab]

/-- C10: the similarity used by the matcher is computed from the two
short question-text fields alone, and the selection made by
find_best_match is unaffected by the content blocks: two natural-language
units with the same text field produce the same search result, and
rewriting every full_section of the candidate pool maps the search result
pointwise without changing the selected candidate or its score. -/
theorem C10_text_only_matching (sim : String → String → ℚ) (thr : ℚ)
    (w w' : WordQ) (hw : w.text = w'.text) (xqs : List XmlQ)
    (g : String → String) :
    find_best_match sim thr w xqs = find_best_match sim thr w' xqs ∧
    find_best_match sim thr w
        (xqs.map (fun x => { x with full_section := g x.full_section })) =
      (find_best_match sim thr w xqs).map
        (fun bs =>
          (bs.1.map (fun x => { x with full_section := g x.full_section }), bs.2)) := by
  constructor
  · simp [find_best_match, bestStep_text_only sim w w' hw]
  · have hfold :
        (xqs.map (fun x => { x with full_section := g x.full_section })).foldl
            (bestStep sim w) ((none : Option XmlQ), (0 : ℚ)) =
          ((xqs.foldl (bestStep sim w) ((none : Option XmlQ), (0 : ℚ))).1.map
              (fun x => { x with full_section := g x.full_section }),
            (xqs.foldl (bestStep sim w) ((none : Option XmlQ), (0 : ℚ))).2) := by
      simpa using bestFold_map_section sim w g xqs ((none : Option XmlQ), (0 : ℚ))
    simp only [find_best_match, hfold]
    by_cases hthr : thr ≤ (xqs.foldl (bestStep sim w) ((none : Option XmlQ), (0 : ℚ))).2
    · simp [hthr]
    · simp [hthr]

/-- Witness for C10 at a concrete input. -/
theorem C10_witness :
    find_best_match (fun _ _ => 1) 1 ⟨"n", "t", "c1", 0⟩
        ([⟨"i", "t2", "s", 0⟩] : List XmlQ) =
        find_best_match (fun _ _ => 1) 1 ⟨"n2", "t", "c2", 5⟩
          ([⟨"i", "t2", "s", 0⟩] : List XmlQ) ∧
      find_best_match (fun _ _ => 1) 1 ⟨"n", "t", "c1", 0⟩
          (([⟨"i", "t2", "s", 0⟩] : List XmlQ).map
            (fun x => { x with full_section := "X" ++ x.full_section })) =
        (find_best_match (fun _ _ => 1) 1 ⟨"n", "t", "c1", 0⟩
            ([⟨"i", "t2", "s", 0⟩] : List XmlQ)).map
          (fun bs =>
            (bs.1.map (fun x => { x with full_section := "X" ++ x.full_section }), bs.2)) :=
  C10_text_only_matching (fun _ _ => 1) 1 ⟨"n", "t", "c1", 0⟩ ⟨"n2", "t", "c2", 5⟩ rfl
    ([⟨"i", "t2", "s", 0⟩] : List XmlQ) (fun s => "X" ++ s)

/-- A document with two numbered questions in which the content of the
first question exceeds a configured content limit of 10 characters (the
limit is the content_limit_chars constructor parameter, default 2000). -/
def docC1 : String := "q1. hello\nAAAAAAAAAAAA\nq2. world\nbody"

/-- C1 counterexample: in docC1 the paragraph q2. world is
question-numbered, yet after the content cap of question q1. is exceeded
the extractor emits no unit for it — the break leaves only the single
capped unit, refuting the claim that segmentation continues past the cap. -/
theorem C1_counterexample :
    is_question_start "q2. world" = true ∧
      (extract_questions 10 docC1).map WordQ.number = ["q1."] ∧
      (extract_questions 10 docC1).length = 1 := by
  decide

/-- C1 amended: when an open question accumulator exceeds the content
limit on appending a non-question paragraph, the unit is still emitted
with everything accumulated up to and including that paragraph, but the
loop stops there: the remaining paragraphs, including all later
question-numbered ones, are discarded (the result does not depend on
them). -/
theorem C1_amended_cap_emits_and_stops (limit : Nat) (p : String)
    (ps : List String) (curT : String) (curC : List String) (curN : String)
    (acc : List WordQ) (h1 : is_question_start p = false) (h2 : curT ≠ "")
    (h3 : p ≠ "") (h4 : limit < totalChars (curC ++ [p])) :
    extract_loop limit (p :: ps) (some curT) curC curN acc =
      acc ++ [mkUnit curN curT (curC ++ [p]) acc.length] := by
  simp [extract_loop, h1, truthyS, h2, h3, h4]

/-- Witness for the amended C1 theorem at a concrete input. -/
theorem C1_amended_witness :
    extract_loop 5 ["123456"] (some "t") ["abc"] "n" [] =
      [mkUnit "n" "t" ["abc", "123456"] 0] :=
  C1_amended_cap_emits_and_stops 5 "123456" [] "t" ["abc"] "n" []
    (by decide) (by decide) (by decide) (by decide)

lemma mem_paragraphs_ne (d : String) : ∀ p ∈ paragraphs_of d, p ≠ "" := by
  intro p hp
  simp only [paragraphs_of, List.mem_filter, Bool.not_eq_eq_eq_not, Bool.not_true,
    decide_eq_false_iff_not] at hp
  exact hp.2

lemma truthy_some (curQ : Option String) (h : truthyS curQ = true) :
    ∃ s, curQ = some s ∧ s ≠ "" ∧ curQ.getD "" = s := by
  cases curQ with
  | none => simp [truthyS] at h
  | some s =>
    refine ⟨s, rfl, ?_, rfl⟩
    simpa [truthyS] using h

lemma extract_loop_good (limit : Nat) :
    ∀ (ps : List String) (curQ : Option String) (curC : List String)
      (curN : String) (acc : List WordQ),
      (∀ u ∈ acc, u.text ≠ "" ∧ u.full_content ≠ "") →
      (truthyS curQ = true → ∃ h t, curC = h :: t ∧ h ≠ "") →
      (∀ p ∈ ps, p ≠ "") →
      ∀ u ∈ extract_loop limit ps curQ curC curN acc,
        u.text ≠ "" ∧ u.full_content ≠ "" := by
  have flush_good : ∀ (curQ : Option String) (curC : List String) (curN : String)
      (k : Nat), truthyS curQ = true → (∃ h t, curC = h :: t ∧ h ≠ "") →
      (mkUnit curN (curQ.getD "") curC k).text ≠ "" ∧
        (mkUnit curN (curQ.getD "") curC k).full_content ≠ "" := by
    intro curQ curC curN k hq hc
    obtain ⟨s, _, hs, hget⟩ := truthy_some curQ hq
    obtain ⟨h, t, hct, hh⟩ := hc
    subst hct
    exact ⟨by simpa [mkUnit, hget] using hs, by simpa [mkUnit] using join_lines_ne h t hh⟩
  intro ps
  induction ps with
  | nil =>
    intro curQ curC curN acc hacc hcur _ u hu
    by_cases hq : truthyS curQ
    · simp only [extract_loop, hq, if_true] at hu
      rcases List.mem_append.mp hu with h | h
      · exact hacc u h
      · rcases List.mem_singleton.mp h with rfl
        exact flush_good curQ curC curN acc.length hq (hcur hq)
    · simp only [extract_loop, hq, if_false] at hu
      exact hacc u hu
  | cons p ps ih =>
    intro curQ curC curN acc hacc hcur hps u hu
    have hp : p ≠ "" := hps p (List.mem_cons_self _ _)
    have hps' : ∀ q ∈ ps, q ≠ "" := fun q hq => hps q (List.mem_cons_of_mem _ hq)
    by_cases hqs : is_question_start p
    · simp only [extract_loop, hqs, if_true] at hu
      have hacc2 : ∀ v ∈ (if truthyS curQ then
          acc ++ [mkUnit curN (curQ.getD "") curC acc.length] else acc),
          v.text ≠ "" ∧ v.full_content ≠ "" := by
        by_cases hq : truthyS curQ
        · simp only [hq, if_true]
          intro v hv
          rcases List.mem_append.mp hv with h | h
          · exact hacc v h
          · rcases List.mem_singleton.mp h with rfl
            exact flush_good curQ curC curN acc.length hq (hcur hq)
        · simp only [hq, if_false]
          exact hacc
      exact ih (some (extract_question_text p)) [p] (extract_question_number p) _
        hacc2 (fun _ => ⟨p, [], rfl, hp⟩) hps' u hu
    · by_cases ht : truthyS curQ && !(p = "")
      · by_cases hlim : limit < totalChars (curC ++ [p])
        · simp only [extract_loop, hqs, if_false, ht, if_true, hlim] at hu
          rcases List.mem_append.mp hu with h | h
          · exact hacc u h
          · rcases List.mem_singleton.mp h with rfl
            have hqT : truthyS curQ = true := by
              have h5 := ht
              simp only [Bool.and_eq_true] at h5
              exact h5.1
            obtain ⟨h0, t0, hct, hh0⟩ := hcur hqT
            exact flush_good curQ (curC ++ [p]) curN acc.length hqT
              ⟨h0, t0 ++ [p], by simp [hct], hh0⟩
        · simp only [extract_loop, hqs, if_false, ht, if_true, hlim] at hu
          have hqT : truthyS curQ = true := by
            have h5 := ht
            simp only [Bool.and_eq_true] at h5
            exact h5.1
          obtain ⟨h0, t0, hct, hh0⟩ := hcur hqT
          exact ih curQ (curC ++ [p]) curN acc hacc
            (fun _ => ⟨h0, t0 ++ [p], by simp [hct], hh0⟩) hps' u hu
      · simp only [extract_loop, hqs, if_false, ht] at hu
        exact ih curQ curC curN acc hacc hcur hps' u hu

lemma xml_loop_from :
    ∀ (rest : List (ElemD × List ElemD)) (seen : List String) (acc : List XmlQ)
      (u : XmlQ), u ∈ xml_loop rest seen acc →
      u ∈ acc ∨ ∃ pr, pr ∈ rest ∧ u.id = idOf pr.1 ∧
        u.text = pyStrip (elemText pr.1) ∧ pyStrip (elemText pr.1) ≠ "" ∧
        u.full_section = serialize (chooseSection pr.1 pr.2).node := by
  intro rest
  induction rest with
  | nil =>
    intro seen acc u hu
    exact Or.inl (by simpa [xml_loop] using hu)
  | cons pr0 rest ih =>
    intro seen acc u hu
    obtain ⟨t, anc⟩ := pr0
    by_cases hskip : idOf t ∈ seen || pyStrip (elemText t) = ""
    · simp only [xml_loop, hskip, if_true] at hu
      rcases ih seen acc u hu with h | ⟨pr, hpr, hrest⟩
      · exact Or.inl h
      · exact Or.inr ⟨pr, List.mem_cons_of_mem _ hpr, hrest⟩
    · simp only [xml_loop, hskip, if_false] at hu
      rcases ih _ _ u hu with h | ⟨pr, hpr, hrest⟩
      · rcases List.mem_append.mp h with h | h
        · exact Or.inl h
        · rcases List.mem_singleton.mp h with rfl
          refine Or.inr ⟨(t, anc), List.mem_cons_self _ _, rfl, rfl, ?_, rfl⟩
          intro hempty
          exact hskip (by simp [hempty])
      · exact Or.inr ⟨pr, List.mem_cons_of_mem _ hpr, hrest⟩

/-- C9: every unit emitted by the natural-language segmenter has
non-empty question text and non-empty content, and every unit emitted by
the structured extractor has non-empty question text and a non-empty
serialized section. -/
theorem C9_nonempty_invariant :
    (∀ (limit : Nat) (doc : String), ∀ u ∈ extract_questions limit doc,
      u.text ≠ "" ∧ u.full_content ≠ "") ∧
    (∀ (root : XNode), ∀ v ∈ xml_extract root,
      v.text ≠ "" ∧ v.full_section ≠ "") := by
  constructor
  · intro limit doc u hu
    exact extract_loop_good limit (paragraphs_of doc) none [] "" []
      (by simp) (by simp [truthyS]) (mem_paragraphs_ne doc) u hu
  · intro root v hv
    rcases xml_loop_from (collect_titles [] root) [] [] v hv with h | ⟨pr, _, _, ht, hne, hs⟩
    · simp at h
    · constructor
      · rw [ht]; exact hne
      · rw [hs]; exact serialize_node_ne _

/-- Witness for C9 at concrete inputs. -/
theorem C9_witness :
    ((⟨"q1.", "hi", "q1. hi", 0⟩ : WordQ).text ≠ "" ∧
      (⟨"q1.", "hi", "q1. hi", 0⟩ : WordQ).full_content ≠ "") ∧
    ((⟨"A", "hi", serialize (XNode.xelem "title" [("id", "A")] [.xtext "hi"]), 0⟩ : XmlQ).text ≠ "" ∧
      (⟨"A", "hi", serialize (XNode.xelem "title" [("id", "A")] [.xtext "hi"]), 0⟩ : XmlQ).full_section ≠ "") :=
  ⟨C9_nonempty_invariant.1 10 "q1. hi" _ (by decide),
    C9_nonempty_invariant.2 (XNode.xelem "title" [("id", "A")] [.xtext "hi"]) _ (by decide)⟩


lemma xml_loop_cons_skip (t : ElemD) (anc : List ElemD)
    (rest : List (ElemD × List ElemD)) (seen : List String) (acc : List XmlQ)
    (h : (idOf t ∈ seen || pyStrip (elemText t) = "") = true) :
    xml_loop ((t, anc) :: rest) seen acc = xml_loop rest seen acc := by
  simp only [xml_loop]
  rw [if_pos]
  exact h

lemma xml_loop_cons_emit (t : ElemD) (anc : List ElemD)
    (rest : List (ElemD × List ElemD)) (seen : List String) (acc : List XmlQ)
    (h : (idOf t ∈ seen || pyStrip (elemText t) = "") = false) :
    xml_loop ((t, anc) :: rest) seen acc =
      xml_loop rest (idOf t :: seen)
        (acc ++ [⟨idOf t, pyStrip (elemText t),
          serialize (chooseSection t anc).node, acc.length⟩]) := by
  simp only [xml_loop]
  rw [if_neg]
  simp [h]

lemma xml_loop_filter (x : String) :
    ∀ (rest : List (ElemD × List ElemD)) (seen : List String) (acc : List XmlQ),
      (x ∈ seen →
        (xml_loop rest seen acc).filter (fun u => u.id = x) =
          acc.filter (fun u => u.id = x)) ∧
      (x ∉ seen →
        ((xml_loop rest seen acc).filter (fun u => u.id = x)).map
            (fun u => (u.text, u.full_section)) =
          (acc.filter (fun u => u.id = x)).map (fun u => (u.text, u.full_section)) ++
            ((rest.find? (fun pr =>
                idOf pr.1 = x && !(pyStrip (elemText pr.1) = ""))).map
              (fun pr => (pyStrip (elemText pr.1),
                serialize (chooseSection pr.1 pr.2).node))).toList) := by
  intro rest
  induction rest with
  | nil =>
    intro seen acc
    exact ⟨fun _ => by simp [xml_loop], fun _ => by simp [xml_loop]⟩
  | cons pr0 rest ih =>
    intro seen acc
    obtain ⟨t, anc⟩ := pr0
    cases hskip : (decide (idOf t ∈ seen) || decide (pyStrip (elemText t) = "")) with
    | false =>
      have hsk := hskip
      simp only [Bool.or_eq_false_iff, decide_eq_false_iff_not] at hsk
      obtain ⟨hnotseen, hne⟩ := hsk
      rw [xml_loop_cons_emit t anc rest seen acc hskip]
      constructor
      · intro hx
        have hix : idOf t ≠ x := fun h => hnotseen (h ▸ hx)
        rw [(ih _ _).1 (List.mem_cons_of_mem _ hx)]
        simp [List.filter_append, hix]
      · intro hx
        by_cases hix : idOf t = x
        · subst hix
          rw [(ih _ _).1 (List.mem_cons_self _ _)]
          rw [List.find?_cons_of_pos _ (by simp [hne])]
          simp [List.filter_append]
        · rw [List.find?_cons_of_neg _ (by simp [hix])]
          have hx2 : x ∉ idOf t :: seen := by
            intro hmem
            rcases List.mem_cons.mp hmem with h | h
            · exact hix h.symm
            · exact hx h
          have h2 := (ih (idOf t :: seen) (acc ++ [⟨idOf t, pyStrip (elemText t),
            serialize (chooseSection t anc).node, acc.length⟩])).2 hx2
          rw [h2]
          simp [List.filter_append, hix]
    | true =>
      rw [xml_loop_cons_skip t anc rest seen acc hskip]
      constructor
      · intro hx
        exact (ih seen acc).1 hx
      · intro hx
        have hpred : (idOf t = x && !(pyStrip (elemText t) = "")) = false := by
          have h6 : idOf t ∈ seen ∨ pyStrip (elemText t) = "" := by
            have hsk := hskip
            simp only [Bool.or_eq_true, decide_eq_true_eq] at hsk
            exact hsk
          rcases h6 with h | h
          · by_cases hix : idOf t = x
            · subst hix
              exact absurd h hx
            · simp [hix]
          · simp [h]
        rw [List.find?_cons_of_neg _ (by simp only [hpred]; exact Bool.false_ne_true)]
        exact (ih seen acc).2 hx

lemma xml_loop_nodup :
    ∀ (rest : List (ElemD × List ElemD)) (seen : List String) (acc : List XmlQ),
      ((acc.map XmlQ.id).Nodup) → (∀ u ∈ acc, u.id ∈ seen) →
      ((xml_loop rest seen acc).map XmlQ.id).Nodup := by
  intro rest
  induction rest with
  | nil =>
    intro seen acc h1 _
    simpa [xml_loop] using h1
  | cons pr0 rest ih =>
    intro seen acc h1 h2
    obtain ⟨t, anc⟩ := pr0
    cases hskip : (decide (idOf t ∈ seen) || decide (pyStrip (elemText t) = "")) with
    | false =>
      have hsk := hskip
      simp only [Bool.or_eq_false_iff, decide_eq_false_iff_not] at hsk
      obtain ⟨hnotseen, hne⟩ := hsk
      rw [xml_loop_cons_emit t anc rest seen acc hskip]
      refine ih _ _ ?_ ?_
      · simp only [List.map_append, List.map_cons, List.map_nil]
        rw [List.nodup_append]
        refine ⟨h1, List.nodup_singleton _, ?_⟩
        intro a ha hb
        rcases List.mem_singleton.mp hb with rfl
        rcases List.mem_map.mp ha with ⟨u, hu, hid⟩
        exact hnotseen (hid ▸ h2 u hu)
      · intro u hu
        rcases List.mem_append.mp hu with h | h
        · exact List.mem_cons_of_mem _ (h2 u h)
        · rcases List.mem_singleton.mp h with rfl
          exact List.mem_cons_self _ _
    | true =>
      rw [xml_loop_cons_skip t anc rest seen acc hskip]
      exact ih seen acc h1 h2

/-- A document with two title elements sharing the id A, both with
whitespace-only inner text. -/
def docC6 : XNode :=
  .xelem "survey" []
    [.xelem "title" [("id", "A")] [.xtext "  "],
     .xelem "title" [("id", "A")] [.xtext "  "]]

/-- C6 counterexample: docC6 carries two title elements with the same
identifier, yet the extractor emits no unit at all for that identifier,
refuting the claim that such an input always yields exactly one unit for
it — the empty-text skip fires before the identifier is ever recorded. -/
theorem C6_counterexample :
    ((collect_titles [] docC6).filter (fun pr => idOf pr.1 = "A")).length = 2 ∧
      xml_extract docC6 = [] := by
  exact ⟨rfl, rfl⟩

lemma xml_loop_indices :
    ∀ (rest : List (ElemD × List ElemD)) (seen : List String) (acc : List XmlQ),
      acc.map XmlQ.xml_index = List.range acc.length →
      (xml_loop rest seen acc).map XmlQ.xml_index =
        List.range (xml_loop rest seen acc).length := by
  intro rest
  induction rest with
  | nil =>
    intro seen acc h
    simpa [xml_loop] using h
  | cons pr0 rest ih =>
    intro seen acc h
    obtain ⟨t, anc⟩ := pr0
    cases hskip : (decide (idOf t ∈ seen) || decide (pyStrip (elemText t) = "")) with
    | false =>
      rw [xml_loop_cons_emit t anc rest seen acc hskip]
      refine ih _ _ ?_
      simp only [List.map_append, List.map_cons, List.map_nil, List.length_append,
        List.length_cons, List.length_nil, h]
      rw [show acc.length + (0 + 1) = acc.length + 1 by omega]
      exact (List.range_succ acc.length).symm
    | true =>
      rw [xml_loop_cons_skip t anc rest seen acc hskip]
      exact ih seen acc h

/-- C6 amended: the extractor emits at most one unit per identifier; for
each identifier the emitted unit, when one exists, is the one for the
first title element in document order carrying that identifier whose
inner text is non-empty after trimming — its question text and its
serialized section are exactly the ones built from that element and its
ancestor chain; all later elements with an already-emitted identifier and
all empty-text elements are skipped silently (in particular, when every
element with a given identifier has empty trimmed text, no unit is
emitted for it). -/
theorem C6_amended_first_nonempty_wins (root : XNode) :
    ((xml_extract root).map XmlQ.id).Nodup ∧
    (xml_extract root).map XmlQ.xml_index = List.range (xml_extract root).length ∧
    ∀ x : String,
      ((xml_extract root).filter (fun u => u.id = x)).map
          (fun u => (u.text, u.full_section)) =
        (((collect_titles [] root).find? (fun pr =>
            idOf pr.1 = x && !(pyStrip (elemText pr.1) = ""))).map
          (fun pr => (pyStrip (elemText pr.1),
            serialize (chooseSection pr.1 pr.2).node))).toList := by
  refine ⟨xml_loop_nodup (collect_titles [] root) [] [] (by simp) (by simp),
    xml_loop_indices (collect_titles [] root) [] [] (by simp), ?_⟩
  intro x
  have h := (xml_loop_filter x (collect_titles [] root) [] []).2 (by simp)
  simpa [xml_extract] using h

/-- Witness for the amended C6 theorem at a concrete input (its first
title with id A has empty trimmed text, the second a non-empty one). -/
theorem C6_amended_witness :
    ((xml_extract (XNode.xelem "survey" []
        [.xelem "title" [("id", "A")] [.xtext "  "],
         .xelem "title" [("id", "A")] [.xtext "Hello"]])).map XmlQ.id).Nodup ∧
    (xml_extract (XNode.xelem "survey" []
        [.xelem "title" [("id", "A")] [.xtext "  "],
         .xelem "title" [("id", "A")] [.xtext "Hello"]])).map XmlQ.xml_index =
      List.range (xml_extract (XNode.xelem "survey" []
        [.xelem "title" [("id", "A")] [.xtext "  "],
         .xelem "title" [("id", "A")] [.xtext "Hello"]])).length ∧
    ∀ x : String,
      ((xml_extract (XNode.xelem "survey" []
          [.xelem "title" [("id", "A")] [.xtext "  "],
           .xelem "title" [("id", "A")] [.xtext "Hello"]])).filter
        (fun u => u.id = x)).map (fun u => (u.text, u.full_section)) =
        (((collect_titles [] (XNode.xelem "survey" []
            [.xelem "title" [("id", "A")] [.xtext "  "],
             .xelem "title" [("id", "A")] [.xtext "Hello"]])).find? (fun pr =>
            idOf pr.1 = x && !(pyStrip (elemText pr.1) = ""))).map
          (fun pr => (pyStrip (elemText pr.1),
            serialize (chooseSection pr.1 pr.2).node))).toList :=
  C6_amended_first_nonempty_wins
    (XNode.xelem "survey" []
      [.xelem "title" [("id", "A")] [.xtext "  "],
       .xelem "title" [("id", "A")] [.xtext "Hello"]])

/-- The fallback chain exactly as the claim words it: the nearest
ancestor whose tag lies in the section-boundary set, otherwise the
immediate parent, otherwise the title element itself. -/
def claim_section_choice (t : ElemD) (anc : List ElemD) : ElemD :=
  match anc.find? (fun e => decide (e.tag ∈ section_tags)) with
  | some e => e
  | none => anc.headD t

lemma find_boundary_eq_find? : ∀ anc : List ElemD,
    find_boundary anc = anc.find? (fun e => decide (e.tag ∈ section_tags)) := by
  intro anc
  induction anc with
  | nil => rfl
  | cons p rest ih =>
    by_cases hp : p.tag ∈ section_tags
    · rw [find_boundary, if_pos hp, List.find?_cons_of_pos _ (by simpa using hp)]
    · rw [find_boundary, if_neg hp, List.find?_cons_of_neg _ (by simpa using hp), ih]

lemma chooseSection_eq_claim (t : ElemD) :
    ∀ anc : List ElemD, chooseSection t anc = claim_section_choice t anc := by
  intro anc
  simp only [chooseSection, claim_section_choice, find_boundary_eq_find?]
  cases anc.find? (fun e => decide (e.tag ∈ section_tags)) with
  | some e => rfl
  | none => cases anc <;> rfl

/-- C8: the source walks the ancestor chain from the immediate parent
upward and serializes the first element whose tag is a section boundary,
falling back to the immediate parent and then to the title element
itself; consequently the content block of every emitted unit is the
serialized subtree of exactly the element described by that chain. -/
theorem C8_section_fallback_chain :
    (∀ (t : ElemD) (anc : List ElemD),
      chooseSection t anc = claim_section_choice t anc) ∧
    (∀ (root : XNode) (u : XmlQ), u ∈ xml_extract root →
      ∃ pr, pr ∈ collect_titles [] root ∧ u.id = idOf pr.1 ∧
        u.full_section = serialize (claim_section_choice pr.1 pr.2).node) := by
  constructor
  · exact fun t => chooseSection_eq_claim t
  · intro root u hu
    rcases xml_loop_from (collect_titles [] root) [] [] u hu with h | ⟨pr, hpr, hid, _, _, hs⟩
    · simp at h
    · exact ⟨pr, hpr, hid, by rw [hs, chooseSection_eq_claim]⟩

/-- Witness for C8 at a concrete input: a title nested inside a radio
element inside a page element, whose section resolves to the page. -/
theorem C8_witness :
    ∃ pr, pr ∈ collect_titles []
        (XNode.xelem "page" [("id", "p")]
          [.xelem "radio" []
            [.xelem "title" [("id", "Q")] [.xtext "Age?"]]]) ∧
      (⟨"Q", "Age?",
        serialize (XNode.xelem "page" [("id", "p")]
          [.xelem "radio" []
            [.xelem "title" [("id", "Q")] [.xtext "Age?"]]]), 0⟩ : XmlQ).id = idOf pr.1 ∧
      (⟨"Q", "Age?",
        serialize (XNode.xelem "page" [("id", "p")]
          [.xelem "radio" []
            [.xelem "title" [("id", "Q")] [.xtext "Age?"]]]), 0⟩ : XmlQ).full_section =
        serialize (claim_section_choice pr.1 pr.2).node :=
  C8_section_fallback_chain.2
    (XNode.xelem "page" [("id", "p")]
      [.xelem "radio" []
        [.xelem "title" [("id", "Q")] [.xtext "Age?"]]]) _ (by decide)

lemma bestFold_spec (sim : String → String → ℚ) (w : WordQ) :
    ∀ (l : List XmlQ) (b : Option XmlQ × ℚ),
      (l.foldl (bestStep sim w) b = b ∧ ∀ y ∈ l, sim w.text y.text ≤ b.2) ∨
      (∃ x l1 l2, l = l1 ++ x :: l2 ∧
        l.foldl (bestStep sim w) b = (some x, sim w.text x.text) ∧
        b.2 < sim w.text x.text ∧
        (∀ y ∈ l1, sim w.text y.text < sim w.text x.text) ∧
        (∀ y ∈ l2, sim w.text y.text ≤ sim w.text x.text)) := by
  intro l
  induction l with
  | nil =>
    intro b
    exact Or.inl ⟨rfl, by simp⟩
  | cons a l ih =>
    intro b
    rw [List.foldl_cons]
    by_cases hab : b.2 < sim w.text a.text
    · have hstep : bestStep sim w b a = (some a, sim w.text a.text) := by
        simp [bestStep, hab]
      rw [hstep]
      rcases ih (some a, sim w.text a.text) with ⟨heq, hall⟩ |
        ⟨x, l1, l2, hsplit, heq, hlt, hbefore, hafter⟩
      · exact Or.inr ⟨a, [], l, by simp, heq, hab, by simp, by simpa using hall⟩
      · refine Or.inr ⟨x, a :: l1, l2, by simp [hsplit], heq, lt_trans hab hlt, ?_, hafter⟩
        intro y hy
        rcases List.mem_cons.mp hy with rfl | hy
        · exact hlt
        · exact hbefore y hy
    · have hstep : bestStep sim w b a = b := by
        simp [bestStep, hab]
      rw [hstep]
      rcases ih b with ⟨heq, hall⟩ | ⟨x, l1, l2, hsplit, heq, hlt, hbefore, hafter⟩
      · refine Or.inl ⟨heq, ?_⟩
        intro y hy
        rcases List.mem_cons.mp hy with rfl | hy
        · exact le_of_not_lt hab
        · exact hall y hy
      · refine Or.inr ⟨x, a :: l1, l2, by simp [hsplit], heq, hlt, ?_, hafter⟩
        intro y hy
        rcases List.mem_cons.mp hy with rfl | hy
        · exact lt_of_le_of_lt (le_of_not_lt hab) hlt
        · exact hbefore y hy

lemma find_best_match_some (sim : String → String → ℚ) (thr : ℚ) (w : WordQ)
    (ux : List XmlQ) (x : XmlQ) (s : ℚ)
    (h : find_best_match sim thr w ux = some (some x, s)) :
    s = sim w.text x.text ∧ thr ≤ s ∧
      ∃ l1 l2, ux = l1 ++ x :: l2 ∧
        (∀ y ∈ l1, sim w.text y.text < s) ∧
        (∀ y ∈ l2, sim w.text y.text ≤ s) := by
  have hsplit := bestFold_spec sim w ux ((none : Option XmlQ), (0 : ℚ))
  by_cases hthr : thr ≤ (ux.foldl (bestStep sim w) ((none : Option XmlQ), (0 : ℚ))).2
  · rw [find_best_match, if_pos hthr] at h
    have hbest := Option.some.inj h
    rcases hsplit with ⟨heq, _⟩ | ⟨x', l1, l2, hspl, heq, _, hbefore, hafter⟩
    · rw [heq] at hbest
      exact absurd (congrArg Prod.fst hbest) (by simp)
    · rw [heq] at hbest
      have hx : x' = x := by
        have := congrArg Prod.fst hbest
        simpa using this
      have hs : s = sim w.text x'.text := (congrArg Prod.snd hbest).symm
      subst hx
      refine ⟨hs, ?_, l1, l2, hspl, ?_, ?_⟩
      · rw [heq] at hthr
        simpa [← hs] using hthr
      · intro y hy
        rw [hs]
        exact hbefore y hy
      · intro y hy
        rw [hs]
        exact hafter y hy
  · rw [find_best_match, if_neg hthr] at h
    exact absurd h (by simp)

lemma find_best_match_none_of_pos (sim : String → String → ℚ) (thr : ℚ)
    (hthr : 0 < thr) (w : WordQ) (ux : List XmlQ) (s : ℚ) :
    find_best_match sim thr w ux ≠ some (none, s) := by
  intro h
  by_cases hc : thr ≤ (ux.foldl (bestStep sim w) ((none : Option XmlQ), (0 : ℚ))).2
  · rw [find_best_match, if_pos hc] at h
    have hbest := Option.some.inj h
    rcases bestFold_spec sim w ux ((none : Option XmlQ), (0 : ℚ)) with ⟨heq, _⟩ |
      ⟨x, l1, l2, _, heq, _, _, _⟩
    · rw [heq] at hc
      have hc0 : thr ≤ 0 := by simpa using hc
      exact absurd hc0 (not_le.mpr hthr)
    · rw [heq] at hbest
      exact absurd (congrArg Prod.fst hbest) (by simp)
  · rw [find_best_match, if_neg hc] at h
    exact absurd h (by simp)

lemma match_loop_cons_hit (sim : String → String → ℚ) (thr : ℚ) (w : WordQ)
    (ws : List WordQ) (ms : List MatchEntry) (uw : List WordQ) (ux : List XmlQ)
    (x : XmlQ) (s : ℚ) (hfbm : find_best_match sim thr w ux = some (some x, s))
    (hmem : x ∈ ux) :
    match_loop sim thr (w :: ws) ms uw ux =
      match_loop sim thr ws (ms ++ [⟨w, x, s⟩]) uw (ux.erase x) := by
  simp [match_loop, hfbm, hmem]

lemma match_loop_cons_miss (sim : String → String → ℚ) (thr : ℚ) (w : WordQ)
    (ws : List WordQ) (ms : List MatchEntry) (uw : List WordQ) (ux : List XmlQ)
    (hfbm : find_best_match sim thr w ux = none) :
    match_loop sim thr (w :: ws) ms uw ux =
      match_loop sim thr ws ms (uw ++ [w]) ux := by
  simp [match_loop, hfbm]

/-- C2: for a processed natural-language unit the matcher selects the
strictly best-scoring candidate of the live pool, breaking score ties in
favour of the earliest sequence index; when the best score reaches the
threshold the selected structured unit is consumed (removed from the
pool) and the pair recorded, and when the search reports no acceptable
candidate the unit is recorded unmatched with the pool untouched.  For a
positive threshold the search never reports an acceptable empty best. -/
theorem C2_greedy_selection (sim : String → String → ℚ) (thr : ℚ)
    (hthr : 0 < thr) (w : WordQ) (ws : List WordQ) (ms : List MatchEntry)
    (uw : List WordQ) (ux : List XmlQ)
    (hsorted : ux.Pairwise (fun a b => a.xml_index < b.xml_index)) :
    (∀ x s, find_best_match sim thr w ux = some (some x, s) →
      x ∈ ux ∧ s = sim w.text x.text ∧ thr ≤ s ∧
      (∀ y ∈ ux, sim w.text y.text ≤ s) ∧
      (∀ y ∈ ux, sim w.text y.text = s → x.xml_index ≤ y.xml_index) ∧
      match_loop sim thr (w :: ws) ms uw ux =
        match_loop sim thr ws (ms ++ [⟨w, x, s⟩]) uw (ux.erase x)) ∧
    (∀ s, find_best_match sim thr w ux ≠ some (none, s)) ∧
    (find_best_match sim thr w ux = none →
      match_loop sim thr (w :: ws) ms uw ux =
        match_loop sim thr ws ms (uw ++ [w]) ux) := by
  refine ⟨?_, fun s => find_best_match_none_of_pos sim thr hthr w ux s,
    fun h => match_loop_cons_miss sim thr w ws ms uw ux h⟩
  intro x s hfbm
  obtain ⟨hs, hths, l1, l2, hspl, hbefore, hafter⟩ :=
    find_best_match_some sim thr w ux x s hfbm
  have hmem : x ∈ ux := by
    rw [hspl]
    exact List.mem_append.mpr (Or.inr (List.mem_cons_self _ _))
  have hmax : ∀ y ∈ ux, sim w.text y.text ≤ s := by
    intro y hy
    rw [hspl] at hy
    rcases List.mem_append.mp hy with hy | hy
    · exact (hbefore y hy).le
    · rcases List.mem_cons.mp hy with rfl | hy
      · exact hs.ge
      · exact hafter y hy
  have htie : ∀ y ∈ ux, sim w.text y.text = s → x.xml_index ≤ y.xml_index := by
    intro y hy hsy
    rw [hspl] at hy hsorted
    rcases List.mem_append.mp hy with hy | hy
    · exact absurd hsy (ne_of_lt (hbefore y hy))
    · rcases List.mem_cons.mp hy with rfl | hy
      · exact le_refl _
      · have h2 := (List.pairwise_append.mp hsorted).2.1
        exact (List.pairwise_cons.mp h2).1 y hy |>.le
  exact ⟨hmem, hs, hths, hmax, htie,
    match_loop_cons_hit sim thr w ws ms uw ux x s hfbm hmem⟩

/-- Witness for C2 at a concrete input: two candidates with a tie on the
top score, the earlier one selected and consumed. -/
theorem C2_witness :
    (∀ x s, find_best_match (fun _ b => if b = "u" then 0 else 1) 1
        ⟨"n", "t", "c", 0⟩ [⟨"A", "a", "s1", 0⟩, ⟨"B", "b", "s2", 1⟩] = some (some x, s) →
      x ∈ [⟨"A", "a", "s1", 0⟩, ⟨"B", "b", "s2", 1⟩] ∧
      s = (fun (_ : String) (b : String) => if b = "u" then (0 : ℚ) else 1) "t" x.text ∧
      (1 : ℚ) ≤ s ∧
      (∀ y ∈ [(⟨"A", "a", "s1", 0⟩ : XmlQ), ⟨"B", "b", "s2", 1⟩],
        (fun (_ : String) (b : String) => if b = "u" then (0 : ℚ) else 1) "t" y.text ≤ s) ∧
      (∀ y ∈ [(⟨"A", "a", "s1", 0⟩ : XmlQ), ⟨"B", "b", "s2", 1⟩],
        (fun (_ : String) (b : String) => if b = "u" then (0 : ℚ) else 1) "t" y.text = s →
          x.xml_index ≤ y.xml_index) ∧
      match_loop (fun _ b => if b = "u" then 0 else 1) 1 [⟨"n", "t", "c", 0⟩] [] []
          [⟨"A", "a", "s1", 0⟩, ⟨"B", "b", "s2", 1⟩] =
        match_loop (fun _ b => if b = "u" then 0 else 1) 1 [] ([] ++ [⟨⟨"n", "t", "c", 0⟩, x, s⟩]) []
          ([⟨"A", "a", "s1", 0⟩, ⟨"B", "b", "s2", 1⟩].erase x)) ∧
    (∀ s, find_best_match (fun _ b => if b = "u" then 0 else 1) 1
        ⟨"n", "t", "c", 0⟩ [⟨"A", "a", "s1", 0⟩, ⟨"B", "b", "s2", 1⟩] ≠ some (none, s)) ∧
    (find_best_match (fun _ b => if b = "u" then 0 else 1) 1
        ⟨"n", "t", "c", 0⟩ [⟨"A", "a", "s1", 0⟩, ⟨"B", "b", "s2", 1⟩] = none →
      match_loop (fun _ b => if b = "u" then 0 else 1) 1 [⟨"n", "t", "c", 0⟩] [] []
          [⟨"A", "a", "s1", 0⟩, ⟨"B", "b", "s2", 1⟩] =
        match_loop (fun _ b => if b = "u" then 0 else 1) 1 [] [] ([] ++ [⟨"n", "t", "c", 0⟩])
          [⟨"A", "a", "s1", 0⟩, ⟨"B", "b", "s2", 1⟩]) :=
  C2_greedy_selection (fun _ b => if b = "u" then 0 else 1) 1 (by norm_num)
    ⟨"n", "t", "c", 0⟩ [] [] [] [⟨"A", "a", "s1", 0⟩, ⟨"B", "b", "s2", 1⟩]
    (by simp)

lemma match_loop_cons_none (sim : String → String → ℚ) (thr : ℚ) (w : WordQ)
    (ws : List WordQ) (ms : List MatchEntry) (uw : List WordQ) (ux : List XmlQ)
    (s : ℚ) (hfbm : find_best_match sim thr w ux = some (none, s)) :
    match_loop sim thr (w :: ws) ms uw ux = .error "ValueError" := by
  simp [match_loop, hfbm]

lemma match_loop_cons_bad (sim : String → String → ℚ) (thr : ℚ) (w : WordQ)
    (ws : List WordQ) (ms : List MatchEntry) (uw : List WordQ) (ux : List XmlQ)
    (x : XmlQ) (s : ℚ) (hfbm : find_best_match sim thr w ux = some (some x, s))
    (hmem : x ∉ ux) :
    match_loop sim thr (w :: ws) ms uw ux = .error "ValueError" := by
  simp [match_loop, hfbm, hmem]

lemma match_loop_perm (sim : String → String → ℚ) (thr : ℚ) :
    ∀ (ws : List WordQ) (ms : List MatchEntry) (uw : List WordQ)
      (ux : List XmlQ) (r : MatchResult),
      match_loop sim thr ws ms uw ux = .ok r →
      List.Perm (r.matches'.map MatchEntry.xml_q ++ r.unmatched_xml)
        (ms.map MatchEntry.xml_q ++ ux) := by
  intro ws
  induction ws with
  | nil =>
    intro ms uw ux r h
    have hr : r = ⟨ms, uw, ux⟩ := by
      simpa [match_loop] using h.symm
    subst hr
    exact List.Perm.refl _
  | cons w ws ih =>
    intro ms uw ux r h
    cases hfbm : find_best_match sim thr w ux with
    | none =>
      rw [match_loop_cons_miss sim thr w ws ms uw ux hfbm] at h
      exact ih ms (uw ++ [w]) ux r h
    | some best =>
      obtain ⟨ob, s⟩ := best
      cases ob with
      | none =>
        rw [match_loop_cons_none sim thr w ws ms uw ux s hfbm] at h
        exact absurd h (by simp)
      | some x =>
        by_cases hmem : x ∈ ux
        · rw [match_loop_cons_hit sim thr w ws ms uw ux x s hfbm hmem] at h
          have hperm := ih (ms ++ [⟨w, x, s⟩]) uw (ux.erase x) r h
          refine hperm.trans ?_
          rw [List.map_append]
          have hx : List.Perm (x :: ux.erase x) ux := (List.perm_cons_erase hmem).symm
          have h1 : ms.map MatchEntry.xml_q ++
              List.map MatchEntry.xml_q [(⟨w, x, s⟩ : MatchEntry)] ++ ux.erase x =
              ms.map MatchEntry.xml_q ++ (x :: ux.erase x) := by simp
          rw [h1]
          exact List.Perm.append_left _ hx
        · rw [match_loop_cons_bad sim thr w ws ms uw ux x s hfbm hmem] at h
          exact absurd h (by simp)

/-- C3: whenever the matcher returns normally, the multiset of structured
units referenced by the accepted pairs together with the unmatched
structured units is exactly the input structured-unit list, and when the
input list has no duplicates neither does that combined list — every
structured unit is consumed by at most one pair. -/
theorem C3_structured_partition (sim : String → String → ℚ) (thr : ℚ)
    (wqs : List WordQ) (xqs : List XmlQ) (r : MatchResult)
    (h : match_questions sim thr wqs xqs = .ok r) :
    List.Perm (r.matches'.map MatchEntry.xml_q ++ r.unmatched_xml) xqs ∧
    (xqs.Nodup → (r.matches'.map MatchEntry.xml_q ++ r.unmatched_xml).Nodup) := by
  have hperm := match_loop_perm sim thr wqs [] [] xqs r h
  simp only [List.map_nil, List.nil_append] at hperm
  exact ⟨hperm, fun hnd => hperm.nodup_iff.mpr hnd⟩

/-- Witness for C3 at a concrete input. -/
theorem C3_witness :
    List.Perm
      (({ matches' := [⟨⟨"n", "t", "c", 0⟩, ⟨"A", "t", "s1", 0⟩, 1⟩],
          unmatched_word := [], unmatched_xml := [⟨"B", "u", "s2", 1⟩] } :
            MatchResult).matches'.map MatchEntry.xml_q ++
        ({ matches' := [⟨⟨"n", "t", "c", 0⟩, ⟨"A", "t", "s1", 0⟩, 1⟩],
           unmatched_word := [], unmatched_xml := [⟨"B", "u", "s2", 1⟩] } :
             MatchResult).unmatched_xml)
      [⟨"A", "t", "s1", 0⟩, ⟨"B", "u", "s2", 1⟩] ∧
    ([(⟨"A", "t", "s1", 0⟩ : XmlQ), ⟨"B", "u", "s2", 1⟩].Nodup →
      (({ matches' := [⟨⟨"n", "t", "c", 0⟩, ⟨"A", "t", "s1", 0⟩, 1⟩],
          unmatched_word := [], unmatched_xml := [⟨"B", "u", "s2", 1⟩] } :
            MatchResult).matches'.map MatchEntry.xml_q ++
        ({ matches' := [⟨⟨"n", "t", "c", 0⟩, ⟨"A", "t", "s1", 0⟩, 1⟩],
           unmatched_word := [], unmatched_xml := [⟨"B", "u", "s2", 1⟩] } :
             MatchResult).unmatched_xml).Nodup) :=
  C3_structured_partition (fun a b => if a = b then 1 else 0) 1
    [⟨"n", "t", "c", 0⟩] [⟨"A", "t", "s1", 0⟩, ⟨"B", "u", "s2", 1⟩] _ (by rfl)

lemma calc_sim_bounds (fr fpr fts : String → String → ℕ)
    (h1 : ∀ a b, fr a b ≤ 100) (h2 : ∀ a b, fpr a b ≤ 100)
    (h3 : ∀ a b, fts a b ≤ 100) (t1 t2 : String) :
    0 ≤ calculate_similarity fr fpr fts t1 t2 ∧
      calculate_similarity fr fpr fts t1 t2 ≤ 1 := by
  unfold calculate_similarity
  set n1 := normalize_text t1
  set n2 := normalize_text t2
  have ha : (fr n1 n2 : ℚ) ≤ 100 := by exact_mod_cast h1 n1 n2
  have hb : (fpr n1 n2 : ℚ) ≤ 100 := by exact_mod_cast h2 n1 n2
  have hc : (fts n1 n2 : ℚ) ≤ 100 := by exact_mod_cast h3 n1 n2
  have ha0 : (0 : ℚ) ≤ (fr n1 n2 : ℚ) := Nat.cast_nonneg _
  have hb0 : (0 : ℚ) ≤ (fpr n1 n2 : ℚ) := Nat.cast_nonneg _
  have hc0 : (0 : ℚ) ≤ (fts n1 n2 : ℚ) := Nat.cast_nonneg _
  constructor
  · positivity
  · nlinarith

lemma match_loop_scores (sim : String → String → ℚ) (thr : ℚ)
    (hsim : ∀ a b, sim a b ≤ 1) :
    ∀ (ws : List WordQ) (ms : List MatchEntry) (uw : List WordQ)
      (ux : List XmlQ) (r : MatchResult),
      match_loop sim thr ws ms uw ux = .ok r →
      (∀ m ∈ ms, thr ≤ m.similarity_score ∧ m.similarity_score ≤ 1) →
      ∀ m ∈ r.matches', thr ≤ m.similarity_score ∧ m.similarity_score ≤ 1 := by
  intro ws
  induction ws with
  | nil =>
    intro ms uw ux r h hms
    have hr : r = ⟨ms, uw, ux⟩ := by
      simpa [match_loop] using h.symm
    subst hr
    exact hms
  | cons w ws ih =>
    intro ms uw ux r h hms
    cases hfbm : find_best_match sim thr w ux with
    | none =>
      rw [match_loop_cons_miss sim thr w ws ms uw ux hfbm] at h
      exact ih ms (uw ++ [w]) ux r h hms
    | some best =>
      obtain ⟨ob, s⟩ := best
      cases ob with
      | none =>
        rw [match_loop_cons_none sim thr w ws ms uw ux s hfbm] at h
        exact absurd h (by simp)
      | some x =>
        by_cases hmem : x ∈ ux
        · rw [match_loop_cons_hit sim thr w ws ms uw ux x s hfbm hmem] at h
          obtain ⟨hs, hths, _⟩ := find_best_match_some sim thr w ux x s hfbm
          refine ih _ uw (ux.erase x) r h ?_
          intro m hm
          rcases List.mem_append.mp hm with hm | hm
          · exact hms m hm
          · rcases List.mem_singleton.mp hm with rfl
            exact ⟨hths, by rw [hs]; exact hsim _ _⟩
        · rw [match_loop_cons_bad sim thr w ws ms uw ux x s hfbm hmem] at h
          exact absurd h (by simp)

/-- C4: with the three external ratio functions returning percentages in
[0,100] (as fuzzywuzzy does), the composite similarity 0.3 ratio + 0.3
partial + 0.4 token-sort lies in [0,1] for every pair of input strings,
and every match entry accepted by the aligner carries a similarity score
between the threshold and 1. -/
theorem C4_score_bounds (fr fpr fts : String → String → ℕ)
    (h1 : ∀ a b, fr a b ≤ 100) (h2 : ∀ a b, fpr a b ≤ 100)
    (h3 : ∀ a b, fts a b ≤ 100) :
    (∀ t1 t2, 0 ≤ calculate_similarity fr fpr fts t1 t2 ∧
      calculate_similarity fr fpr fts t1 t2 ≤ 1) ∧
    (∀ (thr : ℚ) (wqs : List WordQ) (xqs : List XmlQ) (r : MatchResult),
      match_questions (calculate_similarity fr fpr fts) thr wqs xqs = .ok r →
      ∀ m ∈ r.matches', thr ≤ m.similarity_score ∧ m.similarity_score ≤ 1) := by
  refine ⟨calc_sim_bounds fr fpr fts h1 h2 h3, ?_⟩
  intro thr wqs xqs r h
  exact match_loop_scores (calculate_similarity fr fpr fts) thr
    (fun a b => (calc_sim_bounds fr fpr fts h1 h2 h3 a b).2) wqs [] [] xqs r h
    (by simp)

/-- Witness for C4 at concrete inputs. -/
theorem C4_witness :
    (0 ≤ calculate_similarity (fun _ _ => 100) (fun _ _ => 100) (fun _ _ => 100) "a" "b" ∧
      calculate_similarity (fun _ _ => 100) (fun _ _ => 100) (fun _ _ => 100) "a" "b" ≤ 1) ∧
    ∀ m ∈ ({ matches' := [⟨⟨"n", "t", "c", 0⟩, ⟨"A", "t", "s", 0⟩, 1⟩],
             unmatched_word := [], unmatched_xml := [] } : MatchResult).matches',
      (1 : ℚ) ≤ m.similarity_score ∧ m.similarity_score ≤ 1 := by
  have hsim : calculate_similarity (fun _ _ => 100) (fun _ _ => 100) (fun _ _ => 100) "t" "t" = 1 := by
    unfold calculate_similarity
    norm_num
  have hfbm : find_best_match
      (calculate_similarity (fun _ _ => 100) (fun _ _ => 100) (fun _ _ => 100)) 1
      ⟨"n", "t", "c", 0⟩ [⟨"A", "t", "s", 0⟩] = some (some ⟨"A", "t", "s", 0⟩, 1) := by
    simp [find_best_match, bestStep, hsim]
  have hrun : match_questions
      (calculate_similarity (fun _ _ => 100) (fun _ _ => 100) (fun _ _ => 100)) 1
      [⟨"n", "t", "c", 0⟩] [⟨"A", "t", "s", 0⟩] =
      .ok ({ matches' := [⟨⟨"n", "t", "c", 0⟩, ⟨"A", "t", "s", 0⟩, 1⟩],
             unmatched_word := [], unmatched_xml := [] } : MatchResult) := by
    rw [match_questions,
      match_loop_cons_hit _ _ _ _ _ _ _ _ _ hfbm (List.mem_singleton.mpr rfl)]
    simp [match_loop]
  exact ⟨(C4_score_bounds (fun _ _ => 100) (fun _ _ => 100) (fun _ _ => 100)
      (fun _ _ => le_refl 100) (fun _ _ => le_refl 100) (fun _ _ => le_refl 100)).1 "a" "b",
    (C4_score_bounds (fun _ _ => 100) (fun _ _ => 100) (fun _ _ => 100)
      (fun _ _ => le_refl 100) (fun _ _ => le_refl 100) (fun _ _ => le_refl 100)).2 1
      [⟨"n", "t", "c", 0⟩] [⟨"A", "t", "s", 0⟩] _ hrun⟩

/-- The synthetic document of the segmentation round-trip: for each item
(label, text, body) one paragraph made of the numbering label directly
followed by the question text, then one body paragraph. -/
def doc_lines : List (String × String × String) → List String
  | [] => []
  | (l, t, b) :: rest => (l ++ t) :: b :: doc_lines rest

/-- The expected output units of the round-trip, with sequence indices
counting from k. -/
def build_units (k : Nat) : List (String × String × String) → List WordQ
  | [] => []
  | (l, t, b) :: rest =>
    ⟨pyStrip l, pyStrip t, (l ++ t) ++ "\n" ++ b, k⟩ :: build_units (k + 1) rest

/-- The side conditions making (label, text, body) a well-formed item of
the synthetic round-trip document: the question paragraph is stripped and
its first matching pattern captures exactly the text part (non-empty
after trimming), deleting the captured text from the full match leaves
the label, the body paragraph is non-empty and matches no numbering
pattern, and the pair stays within the content limit. -/
abbrev C5H (limit : Nat) (it : String × String × String) : Prop :=
  it.2.1 ≠ "" ∧
  first_group1 (it.1 ++ it.2.1).data = some it.2.1.data ∧
  pyStrip (it.1 ++ it.2.1) = it.1 ++ it.2.1 ∧
  pyStrip it.2.1 ≠ "" ∧
  pyStrip ⟨pyEraseAll it.2.1.data (it.1 ++ it.2.1).data⟩ = pyStrip it.1 ∧
  is_question_start it.2.2 = false ∧
  it.2.2 ≠ "" ∧
  (it.1 ++ it.2.1).length + it.2.2.length ≤ limit

lemma c5_is_start (l t : String) (h0 : t ≠ "")
    (h1 : first_group1 (l ++ t).data = some t.data)
    (h2 : pyStrip (l ++ t) = l ++ t) : is_question_start (l ++ t) = true := by
  simp only [is_question_start, h2, h1, Option.isSome_some, Bool.and_true]
  simp [append_ne_right l t h0]

lemma c5_text (l t : String)
    (h1 : first_group1 (l ++ t).data = some t.data)
    (h2 : pyStrip (l ++ t) = l ++ t) :
    extract_question_text (l ++ t) = pyStrip t := by
  simp only [extract_question_text, h2, h1]

lemma c5_number (l t : String)
    (h1 : first_group1 (l ++ t).data = some t.data)
    (h2 : pyStrip (l ++ t) = l ++ t)
    (h4 : pyStrip ⟨pyEraseAll t.data (l ++ t).data⟩ = pyStrip l) :
    extract_question_number (l ++ t) = pyStrip l := by
  simp only [extract_question_number, h2, h1]
  exact h4

lemma extract_loop_cons_q (limit : Nat) (p : String) (ps : List String)
    (curQ : Option String) (curC : List String) (curN : String)
    (acc : List WordQ) (h : is_question_start p = true) :
    extract_loop limit (p :: ps) curQ curC curN acc =
      extract_loop limit ps (some (extract_question_text p)) [p]
        (extract_question_number p)
        (if truthyS curQ then acc ++ [mkUnit curN (curQ.getD "") curC acc.length]
         else acc) := by
  simp [extract_loop, h]

lemma extract_loop_cons_body (limit : Nat) (p : String) (ps : List String)
    (curT : String) (curC : List String) (curN : String) (acc : List WordQ)
    (hq : is_question_start p = false) (ht : truthyS (some curT) = true)
    (hp : p ≠ "") (hlim : ¬limit < totalChars (curC ++ [p])) :
    extract_loop limit (p :: ps) (some curT) curC curN acc =
      extract_loop limit ps (some curT) (curC ++ [p]) curN acc := by
  simp [extract_loop, hq, ht, hp, hlim]

lemma c5_loop (limit : Nat) :
    ∀ (items : List (String × String × String)), (∀ it ∈ items, C5H limit it) →
    ∀ (curQ : Option String) (curC : List String) (curN : String)
      (acc : List WordQ),
      extract_loop limit (doc_lines items) curQ curC curN acc =
        (if truthyS curQ then acc ++ [mkUnit curN (curQ.getD "") curC acc.length]
         else acc) ++
          build_units (if truthyS curQ then acc.length + 1 else acc.length) items := by
  intro items
  induction items with
  | nil =>
    intro _ curQ curC curN acc
    by_cases hq : truthyS curQ
    · simp [doc_lines, extract_loop, hq, build_units]
    · simp [doc_lines, extract_loop, hq, build_units]
  | cons it rest ih =>
    obtain ⟨l, t, b⟩ := it
    intro hits curQ curC curN acc
    obtain ⟨h0, h1, h2, h3, h4, h5, h6, h7⟩ := hits _ (List.mem_cons_self _ _)
    have hrest : ∀ x ∈ rest, C5H limit x :=
      fun x h => hits x (List.mem_cons_of_mem _ h)
    rw [doc_lines,
      extract_loop_cons_q limit (l ++ t) _ curQ curC curN acc (c5_is_start l t h0 h1 h2),
      c5_text l t h1 h2, c5_number l t h1 h2 h4]
    have htr : truthyS (some (pyStrip t)) = true := by
      simp [truthyS, h3]
    have h7' : (l ++ t).length + b.length ≤ limit := h7
    have hlim : ¬limit < totalChars ([l ++ t] ++ [b]) := by
      simp only [totalChars, List.map_append, List.map_cons, List.map_nil,
        List.sum_append, List.sum_cons, List.sum_nil]
      simp only [not_lt]
      omega
    rw [extract_loop_cons_body limit b _ (pyStrip t) [l ++ t] (pyStrip l) _ h5 htr h6 hlim]
    rw [ih hrest]
    by_cases hq : truthyS curQ
    · simp only [hq, if_true, htr, build_units, mkUnit, join_lines, List.length_append,
        List.length_cons, List.length_nil, Option.getD_some]
      simp [List.append_assoc]
    · simp only [hq, if_false, htr, if_true, build_units, mkUnit, join_lines,
        Option.getD_some]
      simp [List.append_assoc]

/-- C5: on a synthetic document whose non-empty stripped paragraphs are N
well-formed numbered question paragraphs each followed by one
non-matching body paragraph within the content limit, the segmenter
returns exactly N units in original order, with sequence indices 0..N-1,
question text the stripped captured remainder, identifier the stripped
leading label (the full match with the captured text deleted), and
content the question paragraph joined with its body paragraph. -/
theorem C5_segmentation_roundtrip (limit : Nat) (doc : String)
    (items : List (String × String × String))
    (hpars : paragraphs_of doc = doc_lines items)
    (hits : ∀ it ∈ items, C5H limit it) :
    extract_questions limit doc = build_units 0 items ∧
    (extract_questions limit doc).length = items.length := by
  have hlen : ∀ (k : Nat) (xs : List (String × String × String)),
      (build_units k xs).length = xs.length := by
    intro k xs
    induction xs generalizing k with
    | nil => rfl
    | cons x xs ih => simp [build_units, ih]
  have hmain : extract_questions limit doc = build_units 0 items := by
    rw [extract_questions, hpars, c5_loop limit items hits none [] "" []]
    rfl
  exact ⟨hmain, by rw [hmain, hlen]⟩

/-- Witness for C5 at a concrete two-question document. -/
theorem C5_witness :
    extract_questions 2000 "Q1. what is one\nsome body\nQ2. what is two\nother body" =
      build_units 0 [("Q1. ", "what is one", "some body"), ("Q2. ", "what is two", "other body")] ∧
    (extract_questions 2000 "Q1. what is one\nsome body\nQ2. what is two\nother body").length =
      [("Q1. ", "what is one", "some body"), ("Q2. ", "what is two", "other body")].length :=
  C5_segmentation_roundtrip 2000 "Q1. what is one\nsome body\nQ2. what is two\nother body"
    [("Q1. ", "what is one", "some body"), ("Q2. ", "what is two", "other body")]
    (by decide) (by decide)
